import Mathlib

/-!
Verification of the power-automate acquisition system.

Shallow embedding of the repository sources:
  * src/aquisition.rs      : WavegenSettings, Aquisition, Aquisition::combine
  * src/power_automate.rs  : the relay channel and HTTP handlers, the command
    client normalisation pipeline, the acquisition driver setter cache, and
    the trimming step of aquire_duration.

Modelling conventions: Rust f64 values are modelled as rationals, std Duration
values as rational numbers of seconds, and Rust panics as explicit error
constructors of an Except result.
-/

/-- From src/aquisition.rs and src/power_automate.rs: wavegen settings value
type.  pkpk, symmetry_p, offset are f64 (modelled as rationals); period is a
Duration (modelled as rational seconds). -/
structure WavegenSettings where
  pkpk : ℚ
  period : ℚ
  symmetry_p : ℚ
  offset : ℚ
deriving DecidableEq

/-- From WavegenSettings::set_ramp_time:
`self.period = (ramp_time + rest_time) * 2;`
`self.symmetry_p = ramp_time.as_secs_f64() / (self.period.as_secs_f64() / 2.) * 100.;` -/
def set_ramp_time (w : WavegenSettings) (ramp_time rest_time : ℚ) : WavegenSettings :=
  let period := (ramp_time + rest_time) * 2
  { w with period := period, symmetry_p := ramp_time / (period / 2) * 100 }

/-- From src/aquisition.rs: one parsed export window, three equal-role channel
arrays plus metadata. -/
structure Aquisition where
  probe : List ℚ
  current : List ℚ
  voltage : List ℚ
  wavegen_settings : WavegenSettings
  sample_period_ms : ℚ
deriving DecidableEq

/-- From the closure `inds` in Aquisition::combine:
`vec.iter().positions(|f| f == v).collect_vec()` — the ascending list of
indices of `l` whose element equals `v`. -/
def inds (v : ℚ) (l : List ℚ) : List Nat :=
  (List.range l.length).filter (fun i => decide (l.getD i 0 = v))

/-- From the closure `intersect` in Aquisition::combine:
`iproduct!(v1, v2).filter(|(a, b)| a == b).map(|(a, _)| *a).collect_vec()`. -/
def intersect (v1 v2 : List Nat) : List Nat :=
  ((v1.flatMap (fun a => v2.map (fun b => (a, b)))).filter
    (fun p => p.1 == p.2)).map Prod.fst

/-- Stable insertion of one candidate set into a list already ordered by
length (helper for the model of `ind_sets.sort_by_key(|v| v.len())`). -/
def insertByLen (x : List Nat) : List (List Nat) → List (List Nat)
  | [] => [x]
  | y :: ys => if x.length ≤ y.length then x :: y :: ys else y :: insertByLen x ys

/-- Models `ind_sets.sort_by_key(|v| v.len())` (a stable sort by length) as a
stable insertion sort, which computes the same function. -/
def sortByLen : List (List Nat) → List (List Nat)
  | [] => []
  | x :: xs => insertByLen x (sortByLen xs)

/-- The successful tail of Aquisition::combine:
`self.probe.extend(other.probe.iter().skip(ind + 1));` and likewise for
current and voltage. -/
def appendFrom (a other : Aquisition) (ind : Nat) : Aquisition :=
  { a with
    probe := a.probe ++ other.probe.drop (ind + 1),
    current := a.current ++ other.current.drop (ind + 1),
    voltage := a.voltage ++ other.voltage.drop (ind + 1) }

/-- The panic sites of Aquisition::combine, kept apart so theorems can name
which panic fires: the two assert_eq at the top, the `.last().unwrap()` on an
empty channel of self, and the `panic!("{ind_sets:#?}")` ambiguity panic
(which carries the sorted candidate sets). -/
inductive CombineError where
  | settingsMismatch
  | samplePeriodMismatch
  | emptyChannel
  | ambiguous (sets : List (List Nat))
deriving DecidableEq

/-- From Aquisition::combine in src/aquisition.rs.  Asserts settings and
sample period equal, takes the last sample of each channel of self, collects
per-channel index candidate sets in other, sorts them by size, resolves the
overlap index from the smallest set or the intersection of the two smallest,
and appends the tail of other; every Rust panic is an explicit error. -/
def combine (a other : Aquisition) : Except CombineError Aquisition :=
  if a.wavegen_settings = other.wavegen_settings then
    if a.sample_period_ms = other.sample_period_ms then
      match a.probe.getLast?, a.current.getLast?, a.voltage.getLast? with
      | some last_probe, some last_current, some last_voltage =>
        let ind_sets := [inds last_probe other.probe,
                         inds last_current other.current,
                         inds last_voltage other.voltage]
        let sorted := sortByLen ind_sets
        let s0 := sorted.getD 0 []
        let s1 := sorted.getD 1 []
        if s0.length = 1 then
          Except.ok (appendFrom a other (s0.headD 0))
        else if (intersect s0 s1).length = 1 then
          Except.ok (appendFrom a other ((intersect s0 s1).headD 0))
        else
          Except.error (CombineError.ambiguous sorted)
      | _, _, _ => Except.error CombineError.emptyChannel
    else Except.error CombineError.samplePeriodMismatch
  else Except.error CombineError.settingsMismatch

/-- Decidable equality for Except results, so concrete runs of combine can
be checked by decide. -/
instance {e a : Type} [DecidableEq e] [DecidableEq a] : DecidableEq (Except e a) := fun x y =>
  match x, y with
  | Except.ok v, Except.ok w =>
    if h : v = w then isTrue (by rw [h]) else isFalse (by intro hc; cases hc; exact h rfl)
  | Except.ok _, Except.error _ => isFalse (by intro hc; cases hc)
  | Except.error _, Except.ok _ => isFalse (by intro hc; cases hc)
  | Except.error v, Except.error w =>
    if h : v = w then isTrue (by rw [h]) else isFalse (by intro hc; cases hc; exact h rfl)

/-- From the trimming step of AquisitionDriver::aquire_duration:
`(duration.as_secs_f64() * 1000. / sample_period) as usize` — the number of
samples kept.  The `as usize` cast truncates a non-negative float toward
zero, modelled by the integer floor of the exact rational. -/
def retainedCount (duration_s sample_period_ms : ℚ) : Nat :=
  ((duration_s * 1000 / sample_period_ms).floor).toNat

/-- From the trimming step of AquisitionDriver::aquire_duration:
`let i = signal_len - (duration.as_secs_f64() * 1000. / sample_period) as usize;`
`for sig in datfile.signals.values_mut() { *sig = sig[i..].into(); }`
where `signal_len` is the length of the first signal. -/
def trimSignals (duration_s sample_period_ms : ℚ)
    (signals : List (List ℚ)) : List (List ℚ) :=
  let signal_len := (signals.headD []).length
  let i := signal_len - retainedCount duration_s sample_period_ms
  signals.map (List.drop i)

/-!
Relay channel and server, from PowerAutomate::new and PowerAutomate::execute
in src/power_automate.rs.  The capacity-one tokio mpsc channel, the single
`oneshot` reply-sender cell of ServerState, and the two HTTP handlers are
modelled as a transition system.  Requests, reply-slot identities and
response bodies are numbers; `taken`, `fulfilled` and `dropped` record the
history needed to state the claims (handed-out requests most recent first,
delivered responses, and reply senders overwritten without being fulfilled,
which in Rust are silently dropped so the matching `recv.await` fails).
-/

structure RelayState where
  chan : Option (Nat × Nat)
  slot : Option Nat
  taken : List (Nat × Nat)
  fulfilled : List (Nat × Nat)
  dropped : List Nat
deriving DecidableEq

/-- The server starts with an empty channel and no held reply sender
(`oneshot: None` in PowerAutomate::new). -/
def initState : RelayState :=
  { chan := none, slot := none, taken := [], fulfilled := [], dropped := [] }

/-- The three externally driven events: a caller inside `execute` sending
`(command_str, send)` on the capacity-one channel, the agent issuing GET `/`,
and the agent issuing POST `/` with a body. -/
inductive RelayEvent where
  | submit (req sid : Nat)
  | getPoll
  | postBody (body : Nat)

/-- Outcome of one event: a new state, a caller blocked on the full
capacity-one channel (`channel_send.send(..).await` suspends), or a fatal
panic (`.take().unwrap()` on an empty oneshot cell in the POST handler). -/
inductive StepResult where
  | ok (s : RelayState)
  | blocked
  | fatal
deriving DecidableEq

/-- One event of the relay system.
submit: `self.channel_send.send((command_str, send)).await` on a
`mpsc::channel(1)` — succeeds only while the one-message buffer is free.
getPoll: the GET handler; `state.channel_recv.try_recv()` either takes the
queued pair and stores its sender with `state.oneshot = Some(oneshot)`
(overwriting, hence dropping, any sender already held) or leaves the state
unchanged and answers an empty body.
postBody: the POST handler; `state.oneshot.take().unwrap().send(body)` —
delivers to the held sender and clears the cell, panicking when none is
held. -/
def step (s : RelayState) : RelayEvent → StepResult
  | RelayEvent.submit req sid =>
    match s.chan with
    | none => StepResult.ok { s with chan := some (req, sid) }
    | some _ => StepResult.blocked
  | RelayEvent.getPoll =>
    match s.chan with
    | some (req, sid) =>
      StepResult.ok { s with
        chan := none,
        slot := some sid,
        taken := (sid, req) :: s.taken,
        dropped := match s.slot with
                   | some old => old :: s.dropped
                   | none => s.dropped }
    | none => StepResult.ok s
  | RelayEvent.postBody body =>
    match s.slot with
    | some sid =>
      StepResult.ok { s with slot := none, fulfilled := (sid, body) :: s.fulfilled }
    | none => StepResult.fatal

/-- Runs a sequence of events; a blocked or fatal step ends the execution
(no further state is reachable along that serialisation). -/
def runRelay : RelayState → List RelayEvent → Option RelayState
  | s, [] => some s
  | s, e :: es =>
    match step s e with
    | StepResult.ok s' => runRelay s' es
    | _ => none

/-!
Acquisition driver setter cache, from AquisitionDriver in
src/power_automate.rs: the four cached `Option` fields and the four setters
that issue a remote command only when the cached value differs, then update
the cache.  Commands are recorded with the exact argument the Rust code
sends (pkpk and offset divided by WAVEGEN_GAIN and 2, period in seconds,
symmetry as given).
-/

def WAVEGEN_GAIN : ℚ := 40

structure AquisitionDriver where
  pkpk : Option ℚ
  period : Option ℚ
  offset : Option ℚ
  symmetry : Option ℚ
deriving DecidableEq

/-- The remote commands the four setters can issue. -/
inductive PaCommand where
  | wavegen_set_amplitude (v : ℚ)
  | wavegen_set_period (v : ℚ)
  | wavegen_set_offset (v : ℚ)
  | wavegen_set_symmetry (v : ℚ)
deriving DecidableEq

/-- From AquisitionDriver::set_wavegen_pkpk:
`if self.pkpk != Some(pkpk) { wavegen_set_amplitude(pkpk / WAVEGEN_GAIN / 2.); self.pkpk = Some(pkpk); }` -/
def set_wavegen_pkpk (d : AquisitionDriver) (pkpk : ℚ) :
    AquisitionDriver × List PaCommand :=
  if d.pkpk ≠ some pkpk then
    ({ d with pkpk := some pkpk },
     [PaCommand.wavegen_set_amplitude (pkpk / WAVEGEN_GAIN / 2)])
  else (d, [])

/-- From AquisitionDriver::set_wavegen_period. -/
def set_wavegen_period (d : AquisitionDriver) (period : ℚ) :
    AquisitionDriver × List PaCommand :=
  if d.period ≠ some period then
    ({ d with period := some period }, [PaCommand.wavegen_set_period period])
  else (d, [])

/-- From AquisitionDriver::set_wavegen_offset:
issues `wavegen_set_offset(offset / WAVEGEN_GAIN / 2.)` on change. -/
def set_wavegen_offset (d : AquisitionDriver) (offset : ℚ) :
    AquisitionDriver × List PaCommand :=
  if d.offset ≠ some offset then
    ({ d with offset := some offset },
     [PaCommand.wavegen_set_offset (offset / WAVEGEN_GAIN / 2)])
  else (d, [])

/-- From AquisitionDriver::set_wavegen_symmetry. -/
def set_wavegen_symmetry (d : AquisitionDriver) (symmetry : ℚ) :
    AquisitionDriver × List PaCommand :=
  if d.symmetry ≠ some symmetry then
    ({ d with symmetry := some symmetry }, [PaCommand.wavegen_set_symmetry symmetry])
  else (d, [])

/-- From AquisitionDriver::apply_wavegen_settings: the four setters in order,
with the issued commands collected in issue order. -/
def apply_wavegen_settings (d : AquisitionDriver) (s : WavegenSettings) :
    AquisitionDriver × List PaCommand :=
  let r1 := set_wavegen_pkpk d s.pkpk
  let r2 := set_wavegen_period r1.1 s.period
  let r3 := set_wavegen_offset r2.1 s.offset
  let r4 := set_wavegen_symmetry r3.1 s.symmetry_p
  (r4.1, r1.2 ++ r2.2 ++ r3.2 ++ r4.2)

/-!
Command client response pipeline, from PowerAutomate::execute in
src/power_automate.rs.  Responses are modelled as character lists.
-/

/-- Value of one hexadecimal digit character, if any. -/
def hexDigit (c : Char) : Option Nat :=
  if '0' ≤ c ∧ c ≤ '9' then some (c.toNat - Char.toNat '0')
  else if 'a' ≤ c ∧ c ≤ 'f' then some (c.toNat - Char.toNat 'a' + 10)
  else if 'A' ≤ c ∧ c ≤ 'F' then some (c.toNat - Char.toNat 'A' + 10)
  else none

/-- Models `url_escape::decode` (an external crate): decodes every valid
percent escape `%XY` to the byte it names and leaves everything else,
including malformed escapes, unchanged. -/
def percentDecode : List Char → List Char
  | '%' :: h :: l :: rest =>
    match hexDigit h, hexDigit l with
    | some hi, some lo => Char.ofNat (hi * 16 + lo) :: percentDecode rest
    | _, _ => '%' :: percentDecode (h :: l :: rest)
  | c :: rest => c :: percentDecode rest
  | [] => []

/-- Models `str::replace(pat, repl)`: replaces every non-overlapping
occurrence of `pat`, scanning left to right (for the nonempty patterns used
here).  The fuel argument, initialised to the length of the scanned list,
only makes the recursion structural; every step consumes at least one
character, so the fuel never runs out. -/
def replaceAllGo (pat repl : List Char) : Nat → List Char → List Char
  | 0, s => s
  | fuel + 1, s =>
    match s with
    | [] => []
    | c :: cs =>
      if pat ≠ [] ∧ pat.isPrefixOf (c :: cs) then
        repl ++ replaceAllGo pat repl fuel ((c :: cs).drop pat.length)
      else c :: replaceAllGo pat repl fuel cs

/-- Models `str::replace(pat, repl)` on character lists. -/
def replaceAll (pat repl s : List Char) : List Char :=
  replaceAllGo pat repl s.length s

/-- The normalisation chain of PowerAutomate::execute:
`url_escape::decode(&resp).replace("+", " ").replace("\r\n", "\\n").replace("False", "false").replace("True", "true")`. -/
def normalizeResponse (resp : List Char) : List Char :=
  replaceAll "True".toList "true".toList
    (replaceAll "False".toList "false".toList
      (replaceAll "\r\n".toList "\\n".toList
        (replaceAll "+".toList " ".toList
          (percentDecode resp))))

/-- From src/power_automate.rs: the error payload the remote agent reports,
a single message string. -/
structure ServerError where
  msg : List Char
deriving DecidableEq

/-- Outcome of PowerAutomate::execute: the decoded typed payload, or the
anyhow context "Power automate returned an error" wrapping the ServerError
message from the Err variant. -/
inductive ExecuteResult (R : Type) where
  | ok (value : R)
  | remoteAgentError (msg : List Char)

/-- The response half of PowerAutomate::execute: normalise the raw reply,
parse it as a tagged `Result<R, ServerError>` (the serde_json parse is kept
abstract as `parse`; its own failure is the `.unwrap()` panic, modelled as
none), and map the Err variant to the remote-agent error carrying the
message. -/
def execute (R : Type) (parse : List Char → Option (Except ServerError R))
    (resp : List Char) : Option (ExecuteResult R) :=
  match parse (normalizeResponse resp) with
  | none => none
  | some (Except.ok r) => some (ExecuteResult.ok r)
  | some (Except.error e) => some (ExecuteResult.remoteAgentError e.msg)

/-- The protocol invariant behind the POST handler: whenever a reply sender
is held, it belongs to the most recently handed-out request. -/
def slotMatchesLatestTaken (s : RelayState) : Prop :=
  ∀ sid, s.slot = some sid → ∃ req, s.taken.head? = some (sid, req)

/-- Discriminator: is the command a set-amplitude command. -/
def isAmplitudeCmd : PaCommand → Bool
  | PaCommand.wavegen_set_amplitude _ => true
  | _ => false

/-- Discriminator: is the command a set-period command. -/
def isPeriodCmd : PaCommand → Bool
  | PaCommand.wavegen_set_period _ => true
  | _ => false

/-- Discriminator: is the command a set-offset command. -/
def isOffsetCmd : PaCommand → Bool
  | PaCommand.wavegen_set_offset _ => true
  | _ => false

/-- Discriminator: is the command a set-symmetry command. -/
def isSymmetryCmd : PaCommand → Bool
  | PaCommand.wavegen_set_symmetry _ => true
  | _ => false

/-!
The second combiner, combine_datfiles in src/power_automate.rs, the one
AquisitionDriver::aquire_duration actually folds windows with.  The DatFile
type comes from the external nanonis crate; it is modelled as combine_datfiles
uses it: named signal arrays iterated in key order (the signals map is
ordered by key).
-/

structure DatFile where
  signals : List (String × List ℚ)
deriving DecidableEq

/-- Ordered-set insertion, helper for the model of BTreeSet. -/
def insertSorted (x : Nat) : List Nat → List Nat
  | [] => [x]
  | y :: ys =>
    if x < y then x :: y :: ys
    else if x = y then y :: ys
    else y :: insertSorted x ys

/-- Models `.collect::<BTreeSet<_>>()`: the ascending duplicate-free list of
the collected indices. -/
def toSortedSet (l : List Nat) : List Nat := l.foldr insertSorted []

/-- Models `BTreeSet::intersection(&a, &b).cloned().collect()`: the common
elements of two ordered sets, in ascending order. -/
def sortedIntersect (s t : List Nat) : List Nat :=
  s.filter (fun x => decide (x ∈ t))

/-- The per-channel last samples,
`a.signals.values().map(|s| *s.last().unwrap())`; none models the unwrap
panic on an empty signal array. -/
def lastsOf : List (String × List ℚ) → Option (List ℚ)
  | [] => some []
  | p :: rest =>
    match p.2.getLast?, lastsOf rest with
    | some v, some vs => some (v :: vs)
    | _, _ => none

/-- The panic sites of combine_datfiles, kept apart: the assert_eq on the
key lists, the `.last().unwrap()` on an empty signal, the `.reduce(..)
.unwrap()` on a file with no signals, and the `.next().unwrap()` on an empty
intersection.  An ambiguous (multi-element) intersection is NOT a panic
site. -/
inductive CombineDatfilesError where
  | keysMismatch
  | emptySignal
  | noSignals
  | emptyIntersection
deriving DecidableEq

/-- From combine_datfiles in src/power_automate.rs.  Asserts equal key
lists, takes the last sample of each signal of a, collects for each channel
the positions in the matching signal of b whose value equals it, widens each
position p to p, p+1, p+2 into an ordered set, intersects the sets across
channels, silently picks the smallest surviving index with
`.into_iter().next().unwrap()`, and appends the tails of b after that index;
every Rust panic is an explicit error. -/
def combine_datfiles (a b : DatFile) : Except CombineDatfilesError DatFile :=
  if a.signals.map Prod.fst = b.signals.map Prod.fst then
    match lastsOf a.signals with
    | none => Except.error CombineDatfilesError.emptySignal
    | some ms =>
      match (ms.zip (b.signals.map Prod.snd)).map
          (fun mv => toSortedSet ((inds mv.1 mv.2).flatMap (fun p => [p, p + 1, p + 2]))) with
      | [] => Except.error CombineDatfilesError.noSignals
      | s :: rest =>
        match (rest.foldl sortedIntersect s).head? with
        | none => Except.error CombineDatfilesError.emptyIntersection
        | some index =>
          Except.ok ⟨(a.signals.zip (b.signals.map Prod.snd)).map
            (fun ks => (ks.1.1, ks.1.2 ++ ks.2.drop (index + 1)))⟩
  else Except.error CombineDatfilesError.keysMismatch

/-!
Helper lemmas.
-/

/-- The floor notation on rationals computes Rat.floor. -/
theorem rat_floor_eq (q : ℚ) : q.floor = ⌊q⌋ := rfl

/-- Membership in an index candidate set. -/
theorem mem_inds {i : Nat} {v : ℚ} {l : List ℚ} :
    i ∈ inds v l ↔ i < l.length ∧ l.getD i 0 = v := by
  simp [inds, List.mem_filter, List.mem_range]

/-- Stable insertion adds exactly the inserted set. -/
theorem mem_insertByLen {y x : List Nat} {l : List (List Nat)} :
    y ∈ insertByLen x l ↔ y = x ∨ y ∈ l := by
  induction l with
  | nil => simp [insertByLen]
  | cons z zs ih =>
    simp only [insertByLen]
    split
    · simp [or_comm, or_left_comm]
    · simp [ih, or_comm, or_left_comm]

/-- Sorting by length does not change the collection of candidate sets. -/
theorem mem_sortByLen {y : List Nat} {l : List (List Nat)} :
    y ∈ sortByLen l ↔ y ∈ l := by
  induction l with
  | nil => simp [sortByLen]
  | cons z zs ih => simp [sortByLen, mem_insertByLen, ih]

/-- Stable insertion grows the list by one. -/
theorem length_insertByLen {x : List Nat} {l : List (List Nat)} :
    (insertByLen x l).length = l.length + 1 := by
  induction l with
  | nil => simp [insertByLen]
  | cons z zs ih =>
    simp only [insertByLen]
    split
    · simp
    · simp [ih]

/-- Sorting by length preserves the number of candidate sets. -/
theorem length_sortByLen {l : List (List Nat)} :
    (sortByLen l).length = l.length := by
  induction l with
  | nil => rfl
  | cons z zs ih => simp [sortByLen, length_insertByLen, ih]

/-- A common index of two candidate sets survives their product-filter
intersection. -/
theorem mem_intersect_of_mem {a : Nat} {v1 v2 : List Nat}
    (h1 : a ∈ v1) (h2 : a ∈ v2) : a ∈ intersect v1 v2 := by
  simp only [intersect, List.mem_map, List.mem_filter, List.mem_flatMap]
  exact ⟨(a, a), ⟨⟨a, h1, by simp [h2]⟩, by simp⟩, rfl⟩

/-- A list holding two distinct elements does not have length one. -/
theorem length_ne_one_of_two_mem {i j : Nat} {l : List Nat}
    (hi : i ∈ l) (hj : j ∈ l) (hne : i ≠ j) : l.length ≠ 1 := by
  intro hlen
  obtain ⟨a, rfl⟩ := List.length_eq_one.mp hlen
  simp only [List.mem_singleton] at hi hj
  exact hne (hi.trans hj.symm)

/-- Inversion for a successful combine: the result appends the tails of the
second window after one overlap index. -/
theorem combine_ok_inv {a b c : Aquisition} (h : combine a b = Except.ok c) :
    ∃ ind, c = appendFrom a b ind := by
  unfold combine at h
  split at h
  · split at h
    · split at h
      · dsimp only at h
        split at h
        · exact ⟨_, (Except.ok.injEq _ _).mp h |>.symm⟩
        · split at h
          · exact ⟨_, (Except.ok.injEq _ _).mp h |>.symm⟩
          · cases h
      · cases h
    · cases h
  · cases h

/-!
Claim theorems.
-/

/-- Claim C1: for two sample windows A and B with a genuine unambiguous
overlap of length k > 0 on every channel (the last sample of A occurs in the
matching channel of B at exactly the single index k-1, simultaneously on all
channels), combine succeeds; the per-channel result length is
len(A) + len(B) - k, the first len(A) samples are exactly the samples of A,
and the remaining samples are exactly the samples of B after the overlap
point. -/
theorem combine_unambiguous_overlap
    (a b : Aquisition) (lp lc lv : ℚ) (k : Nat)
    (hk : 0 < k)
    (hs : a.wavegen_settings = b.wavegen_settings)
    (hsp : a.sample_period_ms = b.sample_period_ms)
    (hlp : a.probe.getLast? = some lp)
    (hlc : a.current.getLast? = some lc)
    (hlv : a.voltage.getLast? = some lv)
    (hip : inds lp b.probe = [k - 1])
    (hic : inds lc b.current = [k - 1])
    (hiv : inds lv b.voltage = [k - 1]) :
    ∃ c, combine a b = Except.ok c ∧
      c.probe.length = a.probe.length + b.probe.length - k ∧
      c.current.length = a.current.length + b.current.length - k ∧
      c.voltage.length = a.voltage.length + b.voltage.length - k ∧
      c.probe.take a.probe.length = a.probe ∧
      c.current.take a.current.length = a.current ∧
      c.voltage.take a.voltage.length = a.voltage ∧
      c.probe.drop a.probe.length = b.probe.drop k ∧
      c.current.drop a.current.length = b.current.drop k ∧
      c.voltage.drop a.voltage.length = b.voltage.drop k := by
  obtain ⟨i, rfl⟩ : ∃ i, k = i + 1 := ⟨k - 1, by omega⟩
  simp only [Nat.add_sub_cancel] at hip hic hiv
  have hbp : i < b.probe.length :=
    (mem_inds.mp (by rw [hip]; exact List.mem_singleton_self i)).1
  have hbc : i < b.current.length :=
    (mem_inds.mp (by rw [hic]; exact List.mem_singleton_self i)).1
  have hbv : i < b.voltage.length :=
    (mem_inds.mp (by rw [hiv]; exact List.mem_singleton_self i)).1
  have hcomb : combine a b = Except.ok (appendFrom a b i) := by
    unfold combine
    rw [if_pos hs, if_pos hsp, hlp, hlc, hlv]
    simp only [hip, hic, hiv, sortByLen, insertByLen, List.length_singleton,
      le_refl, if_true, List.getD_cons_zero, List.headD, if_pos]
  refine ⟨appendFrom a b i, hcomb, ?_, ?_, ?_, ?_, ?_, ?_, ?_, ?_, ?_⟩
  · simp only [appendFrom, List.length_append, List.length_drop]; omega
  · simp only [appendFrom, List.length_append, List.length_drop]; omega
  · simp only [appendFrom, List.length_append, List.length_drop]; omega
  · exact List.take_left a.probe _
  · exact List.take_left a.current _
  · exact List.take_left a.voltage _
  · exact List.drop_left a.probe _
  · exact List.drop_left a.current _
  · exact List.drop_left a.voltage _

/-- Witness for C1 at a concrete input. -/
theorem combine_unambiguous_overlap_witness :
    ∃ c, combine ⟨[1, 2], [1, 2], [1, 2], ⟨0, 0, 0, 0⟩, 1⟩
      ⟨[2, 3], [2, 3], [2, 3], ⟨0, 0, 0, 0⟩, 1⟩ = Except.ok c :=
  (combine_unambiguous_overlap
    ⟨[1, 2], [1, 2], [1, 2], ⟨0, 0, 0, 0⟩, 1⟩
    ⟨[2, 3], [2, 3], [2, 3], ⟨0, 0, 0, 0⟩, 1⟩
    2 2 2 1 (by decide) rfl rfl rfl rfl rfl
    (by decide) (by decide) (by decide)).elim
    (fun c h => ⟨c, h.1⟩)

/-- Ambiguity makes Aquisition::combine panic: when two distinct indices of
B match the last sample of A simultaneously on every channel, the ambiguity
survives the intersection of the two smallest candidate sets and combine
returns the ambiguity error carrying the candidate sets (helper for the C2
theorem). -/
theorem combine_ambiguous_panics
    (a b : Aquisition) (lp lc lv : ℚ) (i j : Nat)
    (hne : i ≠ j)
    (hs : a.wavegen_settings = b.wavegen_settings)
    (hsp : a.sample_period_ms = b.sample_period_ms)
    (hlp : a.probe.getLast? = some lp)
    (hlc : a.current.getLast? = some lc)
    (hlv : a.voltage.getLast? = some lv)
    (hip : i ∈ inds lp b.probe)
    (hic : i ∈ inds lc b.current)
    (hiv : i ∈ inds lv b.voltage)
    (hjp : j ∈ inds lp b.probe)
    (hjc : j ∈ inds lc b.current)
    (hjv : j ∈ inds lv b.voltage) :
    ∃ sets, combine a b = Except.error (CombineError.ambiguous sets) := by
  unfold combine
  rw [if_pos hs, if_pos hsp, hlp, hlc, hlv]
  dsimp only
  have hlen : (sortByLen [inds lp b.probe, inds lc b.current, inds lv b.voltage]).length = 3 := by
    rw [length_sortByLen]; rfl
  obtain ⟨x, y, rest, hxyz⟩ :
      ∃ x y rest, sortByLen [inds lp b.probe, inds lc b.current, inds lv b.voltage]
        = x :: y :: rest := by
    match hq : sortByLen [inds lp b.probe, inds lc b.current, inds lv b.voltage], hlen with
    | x :: y :: rest, _ => exact ⟨x, y, rest, rfl⟩
  have hmemx : x ∈ [inds lp b.probe, inds lc b.current, inds lv b.voltage] := by
    rw [← mem_sortByLen, hxyz]; simp
  have hmemy : y ∈ [inds lp b.probe, inds lc b.current, inds lv b.voltage] := by
    rw [← mem_sortByLen, hxyz]; simp
  have hxi : i ∈ x := by
    rcases (by simpa using hmemx :
        x = inds lp b.probe ∨ x = inds lc b.current ∨ x = inds lv b.voltage) with h|h|h <;>
      rw [h] <;> assumption
  have hxj : j ∈ x := by
    rcases (by simpa using hmemx :
        x = inds lp b.probe ∨ x = inds lc b.current ∨ x = inds lv b.voltage) with h|h|h <;>
      rw [h] <;> assumption
  have hyi : i ∈ y := by
    rcases (by simpa using hmemy :
        y = inds lp b.probe ∨ y = inds lc b.current ∨ y = inds lv b.voltage) with h|h|h <;>
      rw [h] <;> assumption
  have hyj : j ∈ y := by
    rcases (by simpa using hmemy :
        y = inds lp b.probe ∨ y = inds lc b.current ∨ y = inds lv b.voltage) with h|h|h <;>
      rw [h] <;> assumption
  rw [hxyz]
  simp only [List.getD_cons_zero, List.getD_cons_succ]
  rw [if_neg (length_ne_one_of_two_mem hxi hxj hne)]
  rw [if_neg (length_ne_one_of_two_mem (mem_intersect_of_mem hxi hyi)
        (mem_intersect_of_mem hxj hyj) hne)]
  exact ⟨_, rfl⟩

/-- Claim C8: the derived trapezoid constructor sets
period = 2 * (ramp + rest) and symmetry = ramp / (period / 2) * 100; at
ramp = 1s and rest = 5s the period is 12s and the symmetry is
(1 / 6) * 100 percent. -/
theorem set_ramp_time_trapezoid (w : WavegenSettings) (r s : ℚ) :
    (set_ramp_time w r s).period = 2 * (r + s) ∧
    (set_ramp_time w r s).symmetry_p = r / (2 * (r + s) / 2) * 100 ∧
    (set_ramp_time w 1 5).period = 12 ∧
    (set_ramp_time w 1 5).symmetry_p = 1 / 6 * 100 := by
  refine ⟨?_, ?_, ?_, ?_⟩ <;> simp only [set_ramp_time] <;> ring_nf

/-- Claim C9: a successful combine of two windows whose channel arrays have
equal length within each window yields a window whose channel arrays again
have equal length. -/
theorem combine_preserves_equal_lengths
    (a b c : Aquisition)
    (ha1 : a.probe.length = a.current.length)
    (ha2 : a.current.length = a.voltage.length)
    (hb1 : b.probe.length = b.current.length)
    (hb2 : b.current.length = b.voltage.length)
    (hok : combine a b = Except.ok c) :
    c.probe.length = c.current.length ∧ c.current.length = c.voltage.length := by
  obtain ⟨ind, rfl⟩ := combine_ok_inv hok
  constructor <;>
    simp only [appendFrom, List.length_append, List.length_drop] <;> omega

/-- Witness for C9 at a concrete input. -/
theorem combine_preserves_equal_lengths_witness :
    (⟨[1, 2, 3], [1, 2, 3], [1, 2, 3], ⟨0, 0, 0, 0⟩, 1⟩ : Aquisition).probe.length
      = (⟨[1, 2, 3], [1, 2, 3], [1, 2, 3], ⟨0, 0, 0, 0⟩, 1⟩ : Aquisition).current.length ∧
    (⟨[1, 2, 3], [1, 2, 3], [1, 2, 3], ⟨0, 0, 0, 0⟩, 1⟩ : Aquisition).current.length
      = (⟨[1, 2, 3], [1, 2, 3], [1, 2, 3], ⟨0, 0, 0, 0⟩, 1⟩ : Aquisition).voltage.length :=
  combine_preserves_equal_lengths
    ⟨[1, 2], [1, 2], [1, 2], ⟨0, 0, 0, 0⟩, 1⟩
    ⟨[2, 3], [2, 3], [2, 3], ⟨0, 0, 0, 0⟩, 1⟩
    ⟨[1, 2, 3], [1, 2, 3], [1, 2, 3], ⟨0, 0, 0, 0⟩, 1⟩
    rfl rfl rfl rfl rfl

/-- Claim C10: combining requires the older window to have non-empty channel
arrays: when the asserts pass and some channel array of A is empty, combine
hits the unchecked last().unwrap() panic; when every channel array of A is
non-empty, that panic can never fire. -/
theorem combine_empty_channel_requirement (a b : Aquisition) :
    (a.wavegen_settings = b.wavegen_settings →
      a.sample_period_ms = b.sample_period_ms →
      (a.probe = [] ∨ a.current = [] ∨ a.voltage = []) →
      combine a b = Except.error CombineError.emptyChannel) ∧
    (a.probe ≠ [] ∧ a.current ≠ [] ∧ a.voltage ≠ [] →
      combine a b ≠ Except.error CombineError.emptyChannel) := by
  constructor
  · intro hs hsp hemp
    unfold combine
    rw [if_pos hs, if_pos hsp]
    rcases hemp with h | h | h <;> rw [h] <;>
      cases a.probe.getLast? <;> cases a.current.getLast? <;> cases a.voltage.getLast? <;>
        simp [List.getLast?]
  · rintro ⟨hp, hc, hv⟩
    obtain ⟨lp, hlp⟩ : ∃ v, a.probe.getLast? = some v := by
      cases h : a.probe.getLast? with
      | none => exact absurd (List.getLast?_eq_none_iff.mp h) hp
      | some v => exact ⟨v, rfl⟩
    obtain ⟨lc, hlc⟩ : ∃ v, a.current.getLast? = some v := by
      cases h : a.current.getLast? with
      | none => exact absurd (List.getLast?_eq_none_iff.mp h) hc
      | some v => exact ⟨v, rfl⟩
    obtain ⟨lv, hlv⟩ : ∃ v, a.voltage.getLast? = some v := by
      cases h : a.voltage.getLast? with
      | none => exact absurd (List.getLast?_eq_none_iff.mp h) hv
      | some v => exact ⟨v, rfl⟩
    unfold combine
    split
    · split
      · rw [hlp, hlc, hlv]
        dsimp only
        split
        · simp
        · split <;> simp
      · simp
    · simp

/-- Witness for C10 at concrete inputs, both conjuncts. -/
theorem combine_empty_channel_requirement_witness :
    combine ⟨[], [1], [1], ⟨0, 0, 0, 0⟩, 1⟩ ⟨[2, 3], [2, 3], [2, 3], ⟨0, 0, 0, 0⟩, 1⟩
      = Except.error CombineError.emptyChannel ∧
    combine ⟨[1, 2], [1, 2], [1, 2], ⟨0, 0, 0, 0⟩, 1⟩ ⟨[2, 3], [2, 3], [2, 3], ⟨0, 0, 0, 0⟩, 1⟩
      ≠ Except.error CombineError.emptyChannel :=
  ⟨(combine_empty_channel_requirement
      ⟨[], [1], [1], ⟨0, 0, 0, 0⟩, 1⟩ ⟨[2, 3], [2, 3], [2, 3], ⟨0, 0, 0, 0⟩, 1⟩).1
      rfl rfl (Or.inl rfl),
   (combine_empty_channel_requirement
      ⟨[1, 2], [1, 2], [1, 2], ⟨0, 0, 0, 0⟩, 1⟩ ⟨[2, 3], [2, 3], [2, 3], ⟨0, 0, 0, 0⟩, 1⟩).2
      (by decide)⟩

/-!
Further helper lemmas: one-step facts about the relay transition system and
the cached setters.
-/

/-- One relay event preserves the latest-taken invariant. -/
theorem step_preserves_slot_latest {s s' : RelayState} {e : RelayEvent}
    (h0 : slotMatchesLatestTaken s) (h : step s e = StepResult.ok s') :
    slotMatchesLatestTaken s' := by
  cases e with
  | submit req sid =>
    cases hc : s.chan <;> simp [step, hc] at h
    subst h
    intro sid' hs
    exact h0 sid' hs
  | getPoll =>
    cases hc : s.chan with
    | none =>
      simp [step, hc] at h
      subst h
      exact h0
    | some p =>
      obtain ⟨req, sid⟩ := p
      simp [step, hc] at h
      subst h
      intro sid' hs
      simp at hs
      exact ⟨req, by simp [hs]⟩
  | postBody body =>
    cases hsl : s.slot <;> simp [step, hsl] at h
    subst h
    intro sid' hs
    simp at hs

/-- The latest-taken invariant holds in every state reachable from a state
satisfying it. -/
theorem runRelay_slot_latest {es : List RelayEvent} {s0 s : RelayState}
    (h0 : slotMatchesLatestTaken s0) (hrun : runRelay s0 es = some s) :
    slotMatchesLatestTaken s := by
  induction es generalizing s0 with
  | nil =>
    simp [runRelay] at hrun
    rw [← hrun]
    exact h0
  | cons e es ih =>
    simp only [runRelay] at hrun
    cases hstep : step s0 e with
    | ok s' =>
      rw [hstep] at hrun
      exact ih (step_preserves_slot_latest h0 hstep) hrun
    | blocked => rw [hstep] at hrun; cases hrun
    | fatal => rw [hstep] at hrun; cases hrun

theorem set_wavegen_pkpk_fst_pkpk (d : AquisitionDriver) (v : ℚ) :
    (set_wavegen_pkpk d v).1.pkpk = some v := by
  rw [set_wavegen_pkpk]; split <;> simp_all [not_not]

theorem set_wavegen_pkpk_fst_period (d : AquisitionDriver) (v : ℚ) :
    (set_wavegen_pkpk d v).1.period = d.period := by
  rw [set_wavegen_pkpk]; split <;> rfl

theorem set_wavegen_pkpk_fst_offset (d : AquisitionDriver) (v : ℚ) :
    (set_wavegen_pkpk d v).1.offset = d.offset := by
  rw [set_wavegen_pkpk]; split <;> rfl

theorem set_wavegen_pkpk_fst_symmetry (d : AquisitionDriver) (v : ℚ) :
    (set_wavegen_pkpk d v).1.symmetry = d.symmetry := by
  rw [set_wavegen_pkpk]; split <;> rfl

theorem set_wavegen_period_fst_period (d : AquisitionDriver) (v : ℚ) :
    (set_wavegen_period d v).1.period = some v := by
  rw [set_wavegen_period]; split <;> simp_all [not_not]

theorem set_wavegen_period_fst_pkpk (d : AquisitionDriver) (v : ℚ) :
    (set_wavegen_period d v).1.pkpk = d.pkpk := by
  rw [set_wavegen_period]; split <;> rfl

theorem set_wavegen_period_fst_offset (d : AquisitionDriver) (v : ℚ) :
    (set_wavegen_period d v).1.offset = d.offset := by
  rw [set_wavegen_period]; split <;> rfl

theorem set_wavegen_period_fst_symmetry (d : AquisitionDriver) (v : ℚ) :
    (set_wavegen_period d v).1.symmetry = d.symmetry := by
  rw [set_wavegen_period]; split <;> rfl

theorem set_wavegen_offset_fst_offset (d : AquisitionDriver) (v : ℚ) :
    (set_wavegen_offset d v).1.offset = some v := by
  rw [set_wavegen_offset]; split <;> simp_all [not_not]

theorem set_wavegen_offset_fst_pkpk (d : AquisitionDriver) (v : ℚ) :
    (set_wavegen_offset d v).1.pkpk = d.pkpk := by
  rw [set_wavegen_offset]; split <;> rfl

theorem set_wavegen_offset_fst_period (d : AquisitionDriver) (v : ℚ) :
    (set_wavegen_offset d v).1.period = d.period := by
  rw [set_wavegen_offset]; split <;> rfl

theorem set_wavegen_offset_fst_symmetry (d : AquisitionDriver) (v : ℚ) :
    (set_wavegen_offset d v).1.symmetry = d.symmetry := by
  rw [set_wavegen_offset]; split <;> rfl

theorem set_wavegen_symmetry_fst_symmetry (d : AquisitionDriver) (v : ℚ) :
    (set_wavegen_symmetry d v).1.symmetry = some v := by
  rw [set_wavegen_symmetry]; split <;> simp_all [not_not]

theorem set_wavegen_symmetry_fst_pkpk (d : AquisitionDriver) (v : ℚ) :
    (set_wavegen_symmetry d v).1.pkpk = d.pkpk := by
  rw [set_wavegen_symmetry]; split <;> rfl

theorem set_wavegen_symmetry_fst_period (d : AquisitionDriver) (v : ℚ) :
    (set_wavegen_symmetry d v).1.period = d.period := by
  rw [set_wavegen_symmetry]; split <;> rfl

theorem set_wavegen_symmetry_fst_offset (d : AquisitionDriver) (v : ℚ) :
    (set_wavegen_symmetry d v).1.offset = d.offset := by
  rw [set_wavegen_symmetry]; split <;> rfl

theorem set_wavegen_pkpk_noop (d : AquisitionDriver) (v : ℚ) (h : d.pkpk = some v) :
    set_wavegen_pkpk d v = (d, []) := by
  rw [set_wavegen_pkpk]; simp [h]

theorem set_wavegen_period_noop (d : AquisitionDriver) (v : ℚ) (h : d.period = some v) :
    set_wavegen_period d v = (d, []) := by
  rw [set_wavegen_period]; simp [h]

theorem set_wavegen_offset_noop (d : AquisitionDriver) (v : ℚ) (h : d.offset = some v) :
    set_wavegen_offset d v = (d, []) := by
  rw [set_wavegen_offset]; simp [h]

theorem set_wavegen_symmetry_noop (d : AquisitionDriver) (v : ℚ) (h : d.symmetry = some v) :
    set_wavegen_symmetry d v = (d, []) := by
  rw [set_wavegen_symmetry]; simp [h]

theorem set_wavegen_pkpk_shape (d : AquisitionDriver) (v : ℚ) :
    (set_wavegen_pkpk d v).2 = [] ∨
    (set_wavegen_pkpk d v).2 = [PaCommand.wavegen_set_amplitude (v / WAVEGEN_GAIN / 2)] := by
  rw [set_wavegen_pkpk]; split
  · exact Or.inr rfl
  · exact Or.inl rfl

theorem set_wavegen_period_shape (d : AquisitionDriver) (v : ℚ) :
    (set_wavegen_period d v).2 = [] ∨
    (set_wavegen_period d v).2 = [PaCommand.wavegen_set_period v] := by
  rw [set_wavegen_period]; split
  · exact Or.inr rfl
  · exact Or.inl rfl

theorem set_wavegen_offset_shape (d : AquisitionDriver) (v : ℚ) :
    (set_wavegen_offset d v).2 = [] ∨
    (set_wavegen_offset d v).2 = [PaCommand.wavegen_set_offset (v / WAVEGEN_GAIN / 2)] := by
  rw [set_wavegen_offset]; split
  · exact Or.inr rfl
  · exact Or.inl rfl

theorem set_wavegen_symmetry_shape (d : AquisitionDriver) (v : ℚ) :
    (set_wavegen_symmetry d v).2 = [] ∨
    (set_wavegen_symmetry d v).2 = [PaCommand.wavegen_set_symmetry v] := by
  rw [set_wavegen_symmetry]; split
  · exact Or.inr rfl
  · exact Or.inl rfl


/-- Claim C4 (amended): when the requested duration is shorter than the
collected time, trimming keeps, in each channel, exactly
floor(duration_ms / sample_period_ms) samples (the float-to-usize cast
truncates, it does not round), and the kept samples are the most recent ones
(every trimmed channel is a suffix of the original). -/
theorem trim_retains_floor_most_recent
    (d sp : ℚ) (sigs : List (List ℚ)) (n : Nat)
    (hlen : ∀ s ∈ sigs, s.length = n)
    (hk : retainedCount d sp ≤ n) :
    trimSignals d sp sigs = sigs.map (fun s => s.drop (n - retainedCount d sp)) ∧
    ∀ s ∈ sigs, (s.drop (n - retainedCount d sp)).length = retainedCount d sp ∧
      s.drop (n - retainedCount d sp) <:+ s := by
  constructor
  · cases sigs with
    | nil => rfl
    | cons h t =>
      have hh : h.length = n := hlen h (by simp)
      simp [trimSignals, hh]
  · intro s hs
    have hsl := hlen s hs
    constructor
    · rw [List.length_drop, hsl]; omega
    · exact List.drop_suffix _ s

/-- Counterexample for C4 as stated: with a five-sample signal, sample
period 3 ms and duration 8 ms, the code keeps floor(8 / 3) = 2 samples while
round(duration_ms / sample_period_ms) = round(8 / 3) = 3, so the retained
count does not equal the rounded ratio. -/
theorem trim_round_counterexample :
    ¬ (∀ s ∈ trimSignals (8 / 1000) 3 [[1, 2, 3, 4, 5]],
        (s.length : ℤ) = round ((8 / 1000 : ℚ) * 1000 / 3)) := by
  intro h
  have hk : retainedCount (8 / 1000) 3 = 2 := by
    rw [retainedCount, rat_floor_eq]; norm_num; rfl
  have h45 : trimSignals (8 / 1000) 3 [[1, 2, 3, 4, 5]] = [[4, 5]] := by
    simp [trimSignals, hk]
  have h2 := h [4, 5] (by rw [h45]; simp)
  rw [show ((8 / 1000 : ℚ) * 1000 / 3) = 8 / 3 by norm_num] at h2
  rw [show round ((8 : ℚ) / 3) = 3 by norm_num [round_eq]] at h2
  simp at h2

/-- Witness for the amended C4 at a concrete input. -/
theorem trim_retains_floor_most_recent_witness :
    trimSignals (8 / 1000) 3 [[1, 2, 3, 4, 5]]
      = [[(1 : ℚ), 2, 3, 4, 5]].map (fun s => s.drop (5 - retainedCount (8 / 1000) 3)) := by
  have hk : retainedCount (8 / 1000) 3 = 2 := by
    rw [retainedCount, rat_floor_eq]; norm_num; rfl
  exact (trim_retains_floor_most_recent (8 / 1000) 3 [[1, 2, 3, 4, 5]] 5
    (by simp) (by omega)).1

/-- Counterexample for C3 as stated: an execution in which a second submit
completes while the first request is taken but not yet fulfilled, and a
following poll overwrites and drops the first reply slot (slot 1 ends in the
dropped list while nothing was fulfilled), so a submit does not block until
the earlier request is fulfilled and the earlier reply slot is not
preserved. -/
theorem relay_second_submit_counterexample :
    runRelay initState
      [RelayEvent.submit 10 1, RelayEvent.getPoll,
       RelayEvent.submit 20 2, RelayEvent.getPoll]
      = some ⟨none, some 2, [(2, 20), (1, 10)], [], [1]⟩ := rfl

/-- Claim C3 (amended): a second submit issued while one request is pending
in the capacity-one channel blocks exactly until that request is taken by
the poller (not until it is fulfilled): a submit succeeds, placing its own
request, exactly when the channel buffer is empty, so a pending request is
never overwritten or dropped by a later submit; the reply slot of a taken
request, however, is not protected after the take (see the
counterexample). -/
theorem relay_submit_capacity_one (s : RelayState) (req sid : Nat) :
    (step s (RelayEvent.submit req sid) = StepResult.blocked ↔ s.chan ≠ none) ∧
    (step s (RelayEvent.submit req sid)
        = StepResult.ok { s with chan := some (req, sid) } ↔ s.chan = none) := by
  cases h : s.chan <;> simp [step, h]

/-- Claim C5: in every reachable relay state, a POST of a raw body is the
fatal unwrap panic exactly when no reply slot is awaiting (none handed out,
or already fulfilled), and when a slot is awaiting the body is delivered
exactly once to the reply slot of the most recently handed-out request and
the slot is cleared. -/
theorem post_delivers_most_recent (es : List RelayEvent) (s : RelayState)
    (hrun : runRelay initState es = some s) :
    (∀ body, step s (RelayEvent.postBody body) = StepResult.fatal ↔ s.slot = none) ∧
    (∀ sid body, s.slot = some sid →
      (∃ req, s.taken.head? = some (sid, req)) ∧
      step s (RelayEvent.postBody body)
        = StepResult.ok { s with slot := none, fulfilled := (sid, body) :: s.fulfilled }) := by
  have hinv : slotMatchesLatestTaken s :=
    runRelay_slot_latest (by intro sid h; simp [initState] at h) hrun
  constructor
  · intro body
    cases h : s.slot <;> simp [step, h]
  · intro sid body hs
    exact ⟨hinv sid hs, by simp [step, hs]⟩

/-- Witness for C5 at a concrete reachable state. -/
theorem post_delivers_most_recent_witness :
    ∃ req, (RelayState.mk none (some 1) [(1, 10)] [] []).taken.head? = some (1, req) :=
  ((post_delivers_most_recent [RelayEvent.submit 10 1, RelayEvent.getPoll]
    ⟨none, some 1, [(1, 10)], [], []⟩ rfl).2 1 5 rfl).1

/-- Claim C6: applying the same settings twice issues each underlying remote
command at most once: the first application issues each of the four setter
commands at most once, and the second application, which compares every
field against the cached value, issues no command at all and leaves the
cache unchanged. -/
theorem apply_wavegen_settings_idempotent (d : AquisitionDriver) (s : WavegenSettings) :
    apply_wavegen_settings (apply_wavegen_settings d s).1 s
      = ((apply_wavegen_settings d s).1, ([] : List PaCommand)) ∧
    (apply_wavegen_settings d s).2.countP isAmplitudeCmd ≤ 1 ∧
    (apply_wavegen_settings d s).2.countP isPeriodCmd ≤ 1 ∧
    (apply_wavegen_settings d s).2.countP isOffsetCmd ≤ 1 ∧
    (apply_wavegen_settings d s).2.countP isSymmetryCmd ≤ 1 := by
  have hp : (apply_wavegen_settings d s).1.pkpk = some s.pkpk := by
    simp only [apply_wavegen_settings, set_wavegen_symmetry_fst_pkpk,
      set_wavegen_offset_fst_pkpk, set_wavegen_period_fst_pkpk,
      set_wavegen_pkpk_fst_pkpk]
  have hper : (apply_wavegen_settings d s).1.period = some s.period := by
    simp only [apply_wavegen_settings, set_wavegen_symmetry_fst_period,
      set_wavegen_offset_fst_period, set_wavegen_period_fst_period]
  have hof : (apply_wavegen_settings d s).1.offset = some s.offset := by
    simp only [apply_wavegen_settings, set_wavegen_symmetry_fst_offset,
      set_wavegen_offset_fst_offset]
  have hsy : (apply_wavegen_settings d s).1.symmetry = some s.symmetry_p := by
    simp only [apply_wavegen_settings, set_wavegen_symmetry_fst_symmetry]
  constructor
  · conv_lhs => rw [apply_wavegen_settings]
    rw [set_wavegen_pkpk_noop _ _ hp]
    rw [set_wavegen_period_noop _ _ hper]
    rw [set_wavegen_offset_noop _ _ hof]
    rw [set_wavegen_symmetry_noop _ _ hsy]
    simp
  · have hsplit : (apply_wavegen_settings d s).2
        = (set_wavegen_pkpk d s.pkpk).2
          ++ ((set_wavegen_period (set_wavegen_pkpk d s.pkpk).1 s.period).2
          ++ ((set_wavegen_offset
                (set_wavegen_period (set_wavegen_pkpk d s.pkpk).1 s.period).1 s.offset).2
          ++ (set_wavegen_symmetry
                (set_wavegen_offset
                  (set_wavegen_period (set_wavegen_pkpk d s.pkpk).1 s.period).1
                  s.offset).1 s.symmetry_p).2)) := by
      simp only [apply_wavegen_settings]
      simp [List.append_assoc]
    rw [hsplit]
    rcases set_wavegen_pkpk_shape d s.pkpk with h1 | h1 <;>
    rcases set_wavegen_period_shape (set_wavegen_pkpk d s.pkpk).1 s.period with h2 | h2 <;>
    rcases set_wavegen_offset_shape
      (set_wavegen_period (set_wavegen_pkpk d s.pkpk).1 s.period).1 s.offset with h3 | h3 <;>
    rcases set_wavegen_symmetry_shape
      (set_wavegen_offset
        (set_wavegen_period (set_wavegen_pkpk d s.pkpk).1 s.period).1 s.offset).1
      s.symmetry_p with h4 | h4 <;>
    simp [h1, h2, h3, h4, List.countP_append, List.countP_cons,
      isAmplitudeCmd, isPeriodCmd, isOffsetCmd, isSymmetryCmd]


/-- Claim C7: execute first normalises the raw response (percent-escape
decoding, plus signs to spaces, literal CRLF to the escaped two-character
form, and the alternate boolean spellings True and False canonicalised to
true and false, in that order, as the concrete evaluation shows), then
parses the normalised text as a tagged success-or-error result; the outcome
is the remote-agent error carrying exactly the agent message when the parse
yields the Err variant, and the decoded typed payload when it yields Ok. -/
theorem execute_normalises_then_dispatches (R : Type)
    (parse : List Char → Option (Except ServerError R)) (resp : List Char) :
    (∀ m, execute R parse resp = some (ExecuteResult.remoteAgentError m) ↔
      parse (normalizeResponse resp) = some (Except.error ⟨m⟩)) ∧
    (∀ r, execute R parse resp = some (ExecuteResult.ok r) ↔
      parse (normalizeResponse resp) = some (Except.ok r)) ∧
    normalizeResponse "True+%26%20False\r\nX".toList = "true & false\\nX".toList := by
  refine ⟨?_, ?_, by decide⟩
  · intro m
    cases h : parse (normalizeResponse resp) with
    | none => simp [execute, h]
    | some v =>
      cases v with
      | ok r => simp [execute, h]
      | error e =>
        cases e with
        | mk msg => simp [execute, h, ServerError.mk.injEq, eq_comm]
  · intro r
    cases h : parse (normalizeResponse resp) with
    | none => simp [execute, h]
    | some v =>
      cases v with
      | ok r' => simp [execute, h, eq_comm]
      | error e => simp [execute, h]

/-!
Helper lemmas for the combine_datfiles model.
-/

/-- Membership in an ordered-set insertion. -/
theorem mem_insertSorted {y x : Nat} {l : List Nat} :
    y ∈ insertSorted x l ↔ y = x ∨ y ∈ l := by
  induction l with
  | nil => simp [insertSorted]
  | cons z zs ih =>
    simp only [insertSorted]
    split
    · simp [or_comm, or_left_comm]
    · split
      · rename_i heq
        subst heq
        simp only [List.mem_cons]
        tauto
      · simp only [List.mem_cons, ih]
        tauto

/-- Collecting into an ordered set keeps exactly the collected elements. -/
theorem mem_toSortedSet {x : Nat} {l : List Nat} : x ∈ toSortedSet l ↔ x ∈ l := by
  induction l with
  | nil => simp [toSortedSet]
  | cons y ys ih =>
    show x ∈ insertSorted y (toSortedSet ys) ↔ _
    rw [mem_insertSorted, ih]
    simp [List.mem_cons]

/-- Membership in the ordered-set intersection. -/
theorem mem_sortedIntersect {x : Nat} {s t : List Nat} :
    x ∈ sortedIntersect s t ↔ x ∈ s ∧ x ∈ t := by
  simp [sortedIntersect, List.mem_filter]

/-- An index lying in every candidate set survives the folded cross-channel
intersection. -/
theorem mem_foldl_sortedIntersect {x : Nat} {rest : List (List Nat)} {s : List Nat}
    (hx : x ∈ s) (hall : ∀ t ∈ rest, x ∈ t) :
    x ∈ rest.foldl sortedIntersect s := by
  induction rest generalizing s with
  | nil => exact hx
  | cons t ts ih =>
    simp only [List.foldl_cons]
    exact ih (mem_sortedIntersect.mpr ⟨hx, hall t (by simp)⟩)
      (fun u hu => hall u (by simp [hu]))

/-- The collected last samples are one per signal. -/
theorem lastsOf_length {l : List (String × List ℚ)} {ms : List ℚ}
    (h : lastsOf l = some ms) : ms.length = l.length := by
  induction l generalizing ms with
  | nil =>
    simp only [lastsOf, Option.some.injEq] at h
    simp [← h]
  | cons p rest ih =>
    simp only [lastsOf] at h
    cases hp : p.2.getLast? with
    | none => rw [hp] at h; cases h
    | some v =>
      rw [hp] at h
      cases hr : lastsOf rest with
      | none => rw [hr] at h; cases h
      | some vs =>
        rw [hr] at h
        cases h
        simp [ih hr]

/-- Counterexample for C2 as stated: at an input where two indices (0 and 1)
of B match the last sample of A on every channel, combine_datfiles, one of
the two combiners the claim cites and the one aquire_duration actually
folds windows with, does not fail: the widened candidate sets are all
0,1,2,3, the cross-channel intersection keeps them all, and the code
silently picks index 0 and appends the tails of B after it, returning a
successful result instead of an unrecoverable stitching failure. -/
theorem combine_datfiles_ambiguous_counterexample :
    combine_datfiles
      ⟨[("x", [1, 2]), ("y", [1, 2]), ("z", [1, 2])]⟩
      ⟨[("x", [2, 2, 9]), ("y", [2, 2, 9]), ("z", [2, 2, 9])]⟩
      = Except.ok ⟨[("x", [1, 2, 2, 9]), ("y", [1, 2, 2, 9]), ("z", [1, 2, 2, 9])]⟩ := by
  decide

/-- Claim C2 (amended): when two or more indices in B match the last sample
of A simultaneously across all channels, the two cited combiners diverge:
Aquisition::combine fails with the ambiguity panic rather than silently
picking an index, but combine_datfiles, the combiner aquire_duration
actually uses, does not fail on such inputs: the widened cross-channel
intersection stays non-empty, and it silently picks its smallest index and
appends the tails of B after it. -/
theorem combine_ambiguity_handling :
    (∀ (a b : Aquisition) (lp lc lv : ℚ) (i j : Nat),
      i ≠ j →
      a.wavegen_settings = b.wavegen_settings →
      a.sample_period_ms = b.sample_period_ms →
      a.probe.getLast? = some lp →
      a.current.getLast? = some lc →
      a.voltage.getLast? = some lv →
      i ∈ inds lp b.probe → i ∈ inds lc b.current → i ∈ inds lv b.voltage →
      j ∈ inds lp b.probe → j ∈ inds lc b.current → j ∈ inds lv b.voltage →
      ∃ sets, combine a b = Except.error (CombineError.ambiguous sets)) ∧
    (∀ (fa fb : DatFile) (i j : Nat) (ms : List ℚ),
      i ≠ j →
      fa.signals ≠ [] →
      fa.signals.map Prod.fst = fb.signals.map Prod.fst →
      lastsOf fa.signals = some ms →
      (∀ mv ∈ ms.zip (fb.signals.map Prod.snd),
        i ∈ inds mv.1 mv.2 ∧ j ∈ inds mv.1 mv.2) →
      ∃ index, combine_datfiles fa fb
        = Except.ok ⟨(fa.signals.zip (fb.signals.map Prod.snd)).map
            (fun ks => (ks.1.1, ks.1.2 ++ ks.2.drop (index + 1)))⟩) := by
  constructor
  · intro a b lp lc lv i j hne hs hsp hlp hlc hlv hip hic hiv hjp hjc hjv
    exact combine_ambiguous_panics a b lp lc lv i j hne hs hsp hlp hlc hlv
      hip hic hiv hjp hjc hjv
  · intro fa fb i j ms hne hnon hkeys hlasts hmem
    unfold combine_datfiles
    rw [if_pos hkeys, hlasts]
    dsimp only
    cases hsets : (ms.zip (fb.signals.map Prod.snd)).map
        (fun mv => toSortedSet ((inds mv.1 mv.2).flatMap (fun p => [p, p + 1, p + 2]))) with
    | nil =>
      exfalso
      have hms : ms.length = fa.signals.length := lastsOf_length hlasts
      have hfb : fb.signals.length = fa.signals.length := by
        have := congrArg List.length hkeys
        simpa using this.symm
      have hzip : (ms.zip (fb.signals.map Prod.snd)).length = fa.signals.length := by
        simp [List.length_zip, hms, hfb]
      have h0 : (ms.zip (fb.signals.map Prod.snd)).length = 0 := by
        have := congrArg List.length hsets
        simpa using this
      rw [hzip] at h0
      exact hnon (List.length_eq_zero.mp h0)
    | cons s rest =>
      dsimp only
      have hi_all : ∀ t ∈ s :: rest, i ∈ t := by
        intro t ht
        rw [← hsets] at ht
        obtain ⟨mv, hmv, rfl⟩ := List.mem_map.mp ht
        rw [mem_toSortedSet]
        exact List.mem_flatMap.mpr ⟨i, (hmem mv hmv).1, by simp⟩
      have hmem_inter : i ∈ rest.foldl sortedIntersect s :=
        mem_foldl_sortedIntersect (hi_all s (by simp))
          (fun t ht => hi_all t (by simp [ht]))
      cases hhead : (rest.foldl sortedIntersect s).head? with
      | none =>
        exfalso
        rw [List.head?_eq_none_iff.mp hhead] at hmem_inter
        cases hmem_inter
      | some index => exact ⟨index, rfl⟩

/-- Witness for the amended C2, both conjuncts at concrete inputs. -/
theorem combine_ambiguity_handling_witness :
    (∃ sets, combine ⟨[1, 2], [1, 2], [1, 2], ⟨0, 0, 0, 0⟩, 1⟩
        ⟨[2, 2, 9], [2, 2, 9], [2, 2, 9], ⟨0, 0, 0, 0⟩, 1⟩
        = Except.error (CombineError.ambiguous sets)) ∧
    (∃ index, combine_datfiles
        ⟨[("x", [1, 2]), ("y", [1, 2]), ("z", [1, 2])]⟩
        ⟨[("x", [2, 2, 9]), ("y", [2, 2, 9]), ("z", [2, 2, 9])]⟩
        = Except.ok ⟨([("x", [(1 : ℚ), 2]), ("y", [1, 2]), ("z", [1, 2])].zip
            [[(2 : ℚ), 2, 9], [2, 2, 9], [2, 2, 9]]).map
            (fun ks => (ks.1.1, ks.1.2 ++ ks.2.drop (index + 1)))⟩) := by
  constructor
  · exact combine_ambiguity_handling.1 _ _ 2 2 2 0 1 (by decide) rfl rfl rfl rfl rfl
      (by decide) (by decide) (by decide) (by decide) (by decide) (by decide)
  · exact combine_ambiguity_handling.2 _ _ 0 1 [2, 2, 2] (by decide) (by decide) rfl rfl
      (by decide)
